import Mathlib

/-!
Verification of the `migrate` repository's core crate (`migrate-core`).

Shallow embedding of `src/migrate-core/src/{state.rs, diff.rs, dyn_migration.rs,
lib.rs, error.rs}`.  Rust `Vec<u8>` payloads are modelled as `List Char`
(the codec emits UTF-8 text), user-supplied opaque errors (`DynError =
Box<dyn Error>`) as `String`, Rust `TypeId` keys as `Nat`, and the erased
migration-context values stored in the `anymap`-backed registry as `Nat`.
Asynchronous effects (state lock / fetch / update / unlock, script
invocations) are modelled by explicit state passing; panics (`unwrap`,
`assert_eq!`, missing-provider lookups) are modelled by a distinguished
`panicked` outcome that aborts execution without running the exit epilogue,
exactly like Rust unwinding would.
-/

/-- Model of `type DynError = Box<dyn std::error::Error + Send + Sync>`:
an opaque error payload. -/
abbrev DynError := String

/-- Model of the erased migration-context value kept in the registry
(`anymap` stores one value per Rust type; the values themselves are opaque
to the engine). -/
abbrev Ctx := Nat

/-- Translation of `enum MigrationRunMode` (dyn_migration.rs). -/
inductive MigrationRunMode
  | Commit
  | NoCommit
deriving DecidableEq

/-- Translation of `enum MigrationDirection` (dyn_migration.rs). -/
inductive MigrationDirection
  | Up
  | Down
deriving DecidableEq

/-- Translation of `enum PlanExecErrorKind` (error.rs). -/
inductive PlanExecErrorKind
  | ExecMigrationScript (source : DynError)
  | UnlockState (source : DynError)
  | UpdateState (source : DynError)
  | CreateMigrationCtx (source : DynError) (run_mode : MigrationRunMode) (ctx_type : Nat)
  | CtxLacksNoCommitMode
deriving DecidableEq

/-- Translation of `struct PlanExecError { errors: Vec<PlanExecErrorKind> }`
(error.rs). -/
structure PlanExecError where
  errors : List PlanExecErrorKind
deriving DecidableEq

/-- Model of `impl Error for PlanExecError`: `source` returns
`Some(&self.errors[0])`; the indexing panics when `errors` is empty, which
the `Option`-valued model renders as `none`. -/
def PlanExecError.source (e : PlanExecError) : Option PlanExecErrorKind :=
  e.errors[0]?

/-- Model of the bound check performed by `&self.errors[1..]` inside
`impl Display for PlanExecError`: the slice panics unless `1 ≤ len`.
(`errors[0]` in `source` likewise needs `0 < len`.) -/
def PlanExecError.displayIndexOk (e : PlanExecError) : Prop :=
  1 ≤ e.errors.length

/-- Translation of `enum PlanBuildErrorKind` (error.rs); `StateLock` and
`StateFetch` belong to the backend boundary that `build` abstracts over. -/
inductive PlanBuildErrorKind
  | InconsistentMigrationScripts
  | StateDecode (read_state : List Char) (source : DynError)
  | StateLock (source : DynError)
  | StateFetch (source : DynError)
  | UnknownMigration (name : String) (available : List String)
deriving DecidableEq

/-- Translation of `struct MigrationMeta { name: String }` (state.rs). -/
structure MigrationMeta where
  name : String
deriving DecidableEq

/-- Translation of `struct State { applied_migrations: Vec<MigrationMeta> }`
(state.rs). -/
structure State where
  applied_migrations : List MigrationMeta
deriving DecidableEq

/-! JSON layer.

`State::encode` calls `serde_json::to_vec_pretty(&StateRoot::V1(state))` and
`State::decode` calls `serde_json::from_slice::<StateRoot>`.  The model
renders and parses exactly the JSON grammar this codec exchanges:
pretty-printed objects/arrays/strings with serde_json's escaping rules
(`\"`, `\\`, `\b`, `\t`, `\n`, `\f`, `\r` and `\u00xx` for the remaining
control characters).  The parser is whitespace-insensitive like serde's and
type-directed like the derived `Deserialize` impls. -/

/-- Characters serde_json's parser skips between tokens. -/
def isWsChar (c : Char) : Bool :=
  c = ' ' || c = '\n' || c = '\t' || c = '\r'

/-- Skip inter-token whitespace. -/
def skipWs (l : List Char) : List Char :=
  l.dropWhile isWsChar

/-- Two-space pretty-printer indentation, `n` spaces wide. -/
def sp (n : Nat) : List Char :=
  List.replicate n ' '

/-- serde_json's escaping of one character inside a JSON string literal. -/
def escapeChar (c : Char) : List Char :=
  if c = '"' then ['\\', '"']
  else if c = '\\' then ['\\', '\\']
  else if c.toNat = 0x08 then ['\\', 'b']
  else if c.toNat = 0x09 then ['\\', 't']
  else if c.toNat = 0x0a then ['\\', 'n']
  else if c.toNat = 0x0c then ['\\', 'f']
  else if c.toNat = 0x0d then ['\\', 'r']
  else if c.toNat < 0x20 then
    ['\\', 'u', '0', '0', Nat.digitChar (c.toNat / 16), Nat.digitChar (c.toNat % 16)]
  else [c]

/-- Escape every character of a string body. -/
def escapeList : List Char → List Char
  | [] => []
  | c :: cs => escapeChar c ++ escapeList cs

/-- Render a JSON string literal (quote, escaped body, quote). -/
def jstr (s : String) : List Char :=
  '"' :: (escapeList s.data ++ ['"'])

/-- Numeric value of one hex digit, as serde_json's `\u` parser accepts it. -/
def hexVal (c : Char) : Option Nat :=
  if '0' ≤ c ∧ c ≤ '9' then some (c.toNat - 48)
  else if 'a' ≤ c ∧ c ≤ 'f' then some (c.toNat - 87)
  else if 'A' ≤ c ∧ c ≤ 'F' then some (c.toNat - 55)
  else none

/-- Prepend a decoded character to a string-body parse result. -/
def consChar (c : Char) (r : Option (List Char × List Char)) :
    Option (List Char × List Char) :=
  r.map (fun p => (c :: p.1, p.2))

/-- Parse the body of a JSON string literal up to the closing quote,
undoing serde_json's escapes.  Returns the decoded characters and the
input remaining after the closing quote. -/
def parseStringChars : List Char → Option (List Char × List Char)
  | [] => none
  | c :: rest =>
    if c = '"' then some ([], rest)
    else if c = '\\' then
      match rest with
      | [] => none
      | e :: rest2 =>
        if e = '"' then consChar '"' (parseStringChars rest2)
        else if e = '\\' then consChar '\\' (parseStringChars rest2)
        else if e = 'b' then consChar (Char.ofNat 0x08) (parseStringChars rest2)
        else if e = 't' then consChar (Char.ofNat 0x09) (parseStringChars rest2)
        else if e = 'n' then consChar (Char.ofNat 0x0a) (parseStringChars rest2)
        else if e = 'f' then consChar (Char.ofNat 0x0c) (parseStringChars rest2)
        else if e = 'r' then consChar (Char.ofNat 0x0d) (parseStringChars rest2)
        else if e = 'u' then
          match rest2 with
          | h1 :: h2 :: h3 :: h4 :: rest3 =>
            match hexVal h1, hexVal h2, hexVal h3, hexVal h4 with
            | some v1, some v2, some v3, some v4 =>
              let n := ((v1 * 16 + v2) * 16 + v3) * 16 + v4
              if n < 0xd800 ∨ (0xdfff < n ∧ n < 0x110000) then
                consChar (Char.ofNat n) (parseStringChars rest3)
              else none
            | _, _, _, _ => none
          | _ => none
        else none
    else consChar c (parseStringChars rest)

/-- Parse a complete JSON string literal. -/
def parseJString (input : List Char) : Option (String × List Char) :=
  match input with
  | '"' :: rest =>
    match parseStringChars rest with
    | some (cs, r) => some (String.mk cs, r)
    | none => none
  | _ => none

/-- Expect one punctuation character. -/
def expectChar (c : Char) : List Char → Option (List Char)
  | x :: r => if x = c then some r else none
  | [] => none

/-- Parse one element of the `applied_migrations` array: the object
`{ "name": <string> }`, mirroring `MigrationMeta`'s derived
`Deserialize`. -/
def parseMeta (input : List Char) : Option (MigrationMeta × List Char) :=
  match skipWs input with
  | '{' :: r =>
    match parseJString (skipWs r) with
    | some (key, r2) =>
      if key = "name" then
        match expectChar ':' (skipWs r2) with
        | some r3 =>
          match parseJString (skipWs r3) with
          | some (nm, r4) =>
            match expectChar '}' (skipWs r4) with
            | some r5 => some (⟨nm⟩, r5)
            | none => none
          | none => none
        | none => none
      else none
    | none => none
  | _ => none

/-- Parse the comma-separated elements of a non-empty array of
`MigrationMeta` objects.  The loop over elements is fuelled; every caller
passes at least the input length, which the length lemmas below show is
enough. -/
def parseMetaItems : Nat → List Char → Option (List MigrationMeta × List Char)
  | 0, _ => none
  | fuel + 1, input =>
    match parseMeta input with
    | some (m, r) =>
      match skipWs r with
      | ',' :: r2 =>
        match parseMetaItems fuel (skipWs r2) with
        | some (ms, r3) => some (m :: ms, r3)
        | none => none
      | ']' :: r2 => some ([m], r2)
      | _ => none
    | none => none

/-- Parse a JSON array of `MigrationMeta` objects (mirroring the derived
`Deserialize` for `Vec<MigrationMeta>`). -/
def parseMetaArray (fuel : Nat) (input : List Char) :
    Option (List MigrationMeta × List Char) :=
  match skipWs input with
  | '[' :: r =>
    match skipWs r with
    | ']' :: r2 => some ([], r2)
    | r2 => parseMetaItems fuel r2
  | _ => none

/-- Parse the object `{ "applied_migrations": [...] }`, mirroring `State`'s
derived `Deserialize`.  (General serde also tolerates unknown fields; the
model covers the field set the codec itself ever writes.) -/
def parseStateObj (fuel : Nat) (input : List Char) :
    Option (State × List Char) :=
  match skipWs input with
  | '{' :: r =>
    match parseJString (skipWs r) with
    | some (key, r2) =>
      if key = "applied_migrations" then
        match expectChar ':' (skipWs r2) with
        | some r3 =>
          match parseMetaArray fuel r3 with
          | some (ms, r4) =>
            match expectChar '}' (skipWs r4) with
            | some r5 => some (⟨ms⟩, r5)
            | none => none
          | none => none
        | none => none
      else none
    | none => none
  | _ => none

/-- Parse the externally tagged `enum StateRoot { V1(State) }` with
`rename_all = "snake_case"`: a single-entry map `{ "v1": <State> }`. -/
def parseStateRoot (fuel : Nat) (input : List Char) :
    Option (State × List Char) :=
  match skipWs input with
  | '{' :: r =>
    match parseJString (skipWs r) with
    | some (key, r2) =>
      if key = "v1" then
        match expectChar ':' (skipWs r2) with
        | some r3 =>
          match parseStateObj fuel r3 with
          | some (s, r4) =>
            match expectChar '}' (skipWs r4) with
            | some r5 => some (s, r5)
            | none => none
          | none => none
        | none => none
      else none
    | none => none
  | _ => none

/-- Pretty rendering of one `MigrationMeta` element, at array-item depth,
as `serde_json::to_vec_pretty` lays it out. -/
def renderMeta (m : MigrationMeta) : List Char :=
  '{' :: '\n' :: (sp 8 ++ jstr "name" ++ ':' :: ' ' :: (jstr m.name ++ '\n' :: (sp 6 ++ ['}'])))

/-- Pretty rendering of the comma-separated items of a non-empty array. -/
def renderMetasItems : List MigrationMeta → List Char
  | [] => []
  | [m] => renderMeta m
  | m :: rest => renderMeta m ++ ',' :: '\n' :: (sp 6 ++ renderMetasItems rest)

/-- Pretty rendering of the `applied_migrations` array; the pretty
formatter prints an empty array as `[]`. -/
def renderArray (ms : List MigrationMeta) : List Char :=
  match ms with
  | [] => ['[', ']']
  | _ => '[' :: '\n' :: (sp 6 ++ renderMetasItems ms ++ '\n' :: (sp 4 ++ [']']))

/-- Pretty rendering of the `State` payload object. -/
def renderStateObj (s : State) : List Char :=
  '{' :: '\n' :: (sp 4 ++ jstr "applied_migrations" ++ ':' :: ' ' ::
    (renderArray s.applied_migrations ++ '\n' :: (sp 2 ++ ['}'])))

/-- Translation of `State::encode` (state.rs): wrap in `StateRoot::V1` and
pretty-print with serde_json. -/
def State.encode (s : State) : List Char :=
  '{' :: '\n' :: (sp 2 ++ jstr "v1" ++ ':' :: ' ' :: (renderStateObj s ++ '\n' :: ['}']))

/-- Translation of `State::decode` (state.rs): empty bytes are the empty
state; otherwise parse the versioned root, requiring (as
`serde_json::from_slice` does) that only whitespace follows the value. -/
def State.decode (bytes : List Char) : Except PlanBuildErrorKind State :=
  match bytes with
  | [] => .ok ⟨[]⟩
  | _ =>
    match parseStateRoot bytes.length bytes with
    | some (s, rest) =>
      if (skipWs rest).isEmpty then .ok s
      else .error (.StateDecode bytes "trailing characters")
    | none => .error (.StateDecode bytes "syntax error")

/-- Equality test for `Except` results of the codec and executor models. -/
instance {ε α : Type} [DecidableEq ε] [DecidableEq α] : DecidableEq (Except ε α) :=
  fun a b =>
    match a, b with
    | .ok x, .ok y => if h : x = y then .isTrue (by rw [h]) else .isFalse (by simp [h])
    | .error x, .error y => if h : x = y then .isTrue (by rw [h]) else .isFalse (by simp [h])
    | .ok _, .error _ => .isFalse (by simp)
    | .error _, .ok _ => .isFalse (by simp)

theorem skipWs_cons {c : Char} (h : isWsChar c = false) (l : List Char) :
    skipWs (c :: l) = c :: l := by
  simp [skipWs, List.dropWhile, h]

theorem skipWs_nl (l : List Char) : skipWs ('\n' :: l) = skipWs l := by
  simp [skipWs, List.dropWhile, isWsChar]

theorem skipWs_sp (n : Nat) (l : List Char) : skipWs (sp n ++ l) = skipWs l := by
  induction n with
  | zero => simp [sp]
  | succ k ih =>
    have : sp (k + 1) = ' ' :: sp k := by simp [sp, List.replicate_succ]
    simp only [this, List.cons_append]
    simpa [skipWs, List.dropWhile, isWsChar] using ih

theorem hexVal_digitChar {d : Nat} (h : d < 16) : hexVal (Nat.digitChar d) = some d := by
  interval_cases d <;> decide

theorem psc_quote (rest : List Char) :
    parseStringChars ('"' :: rest) = some ([], rest) := by
  rw [parseStringChars.eq_def]; simp

theorem psc_esc_quote (rest : List Char) :
    parseStringChars ('\\' :: '"' :: rest) = consChar '"' (parseStringChars rest) := by
  rw [parseStringChars.eq_def]; simp +decide

theorem psc_esc_bs (rest : List Char) :
    parseStringChars ('\\' :: '\\' :: rest) = consChar '\\' (parseStringChars rest) := by
  rw [parseStringChars.eq_def]; simp +decide

theorem psc_esc_b (rest : List Char) :
    parseStringChars ('\\' :: 'b' :: rest) = consChar (Char.ofNat 0x08) (parseStringChars rest) := by
  rw [parseStringChars.eq_def]; simp +decide

theorem psc_esc_t (rest : List Char) :
    parseStringChars ('\\' :: 't' :: rest) = consChar (Char.ofNat 0x09) (parseStringChars rest) := by
  rw [parseStringChars.eq_def]; simp +decide

theorem psc_esc_n (rest : List Char) :
    parseStringChars ('\\' :: 'n' :: rest) = consChar (Char.ofNat 0x0a) (parseStringChars rest) := by
  rw [parseStringChars.eq_def]; simp +decide

theorem psc_esc_f (rest : List Char) :
    parseStringChars ('\\' :: 'f' :: rest) = consChar (Char.ofNat 0x0c) (parseStringChars rest) := by
  rw [parseStringChars.eq_def]; simp +decide

theorem psc_esc_r (rest : List Char) :
    parseStringChars ('\\' :: 'r' :: rest) = consChar (Char.ofNat 0x0d) (parseStringChars rest) := by
  rw [parseStringChars.eq_def]; simp +decide

theorem psc_esc_u {d1 d2 : Char} {v1 v2 : Nat} (hx1 : hexVal d1 = some v1)
    (hx2 : hexVal d2 = some v2) (hv : v1 * 16 + v2 < 0xd800) (rest : List Char) :
    parseStringChars ('\\' :: 'u' :: '0' :: '0' :: d1 :: d2 :: rest) =
      consChar (Char.ofNat (v1 * 16 + v2)) (parseStringChars rest) := by
  rw [parseStringChars.eq_def]
  simp +decide only []
  have h0 : hexVal '0' = some 0 := by decide
  simp only [h0, hx1, hx2]
  have harith : ((0 * 16 + 0) * 16 + v1) * 16 + v2 = v1 * 16 + v2 := by omega
  simp only [harith]
  simp [hv]

theorem psc_other {c : Char} (h1 : c ≠ '"') (h2 : c ≠ '\\') (rest : List Char) :
    parseStringChars (c :: rest) = consChar c (parseStringChars rest) := by
  rw [parseStringChars.eq_def]
  simp [h1, h2]

theorem parse_escapeList (cs : List Char) (rest : List Char) :
    parseStringChars (escapeList cs ++ '"' :: rest) = some (cs, rest) := by
  induction cs with
  | nil => simp [escapeList, psc_quote]
  | cons c cs ih =>
    show parseStringChars (escapeChar c ++ escapeList cs ++ '"' :: rest) = _
    by_cases h1 : c = '"'
    · simp [escapeChar, h1, psc_esc_quote, consChar, ih]
    by_cases h2 : c = '\\'
    · simp [escapeChar, h1, h2, psc_esc_bs, consChar, ih]
    by_cases h3 : c.toNat = 0x08
    · have hc : Char.ofNat 0x08 = c := by rw [← h3, Char.ofNat_toNat]
      simp [escapeChar, h1, h2, h3, psc_esc_b, consChar, ih, hc]
      exact hc
    by_cases h4 : c.toNat = 0x09
    · have hc : Char.ofNat 0x09 = c := by rw [← h4, Char.ofNat_toNat]
      simp [escapeChar, h1, h2, h3, h4, psc_esc_t, consChar, ih, hc]
      exact hc
    by_cases h5 : c.toNat = 0x0a
    · have hc : Char.ofNat 0x0a = c := by rw [← h5, Char.ofNat_toNat]
      simp [escapeChar, h1, h2, h3, h4, h5, psc_esc_n, consChar, ih, hc]
      exact hc
    by_cases h6 : c.toNat = 0x0c
    · have hc : Char.ofNat 0x0c = c := by rw [← h6, Char.ofNat_toNat]
      simp [escapeChar, h1, h2, h3, h4, h5, h6, psc_esc_f, consChar, ih, hc]
      exact hc
    by_cases h7 : c.toNat = 0x0d
    · have hc : Char.ofNat 0x0d = c := by rw [← h7, Char.ofNat_toNat]
      simp [escapeChar, h1, h2, h3, h4, h5, h6, h7, psc_esc_r, consChar, ih, hc]
      exact hc
    by_cases h8 : c.toNat < 0x20
    · have hdiv : c.toNat / 16 < 16 := by omega
      have hmod : c.toNat % 16 < 16 := Nat.mod_lt _ (by omega)
      have harith : c.toNat / 16 * 16 + c.toNat % 16 = c.toNat := by omega
      have hlt : c.toNat / 16 * 16 + c.toNat % 16 < 0xd800 := by omega
      have hc : Char.ofNat c.toNat = c := Char.ofNat_toNat c
      simp only [escapeChar, h1, h2, h3, h4, h5, h6, h7, h8, if_true, if_false,
        ite_true, ite_false, List.cons_append, List.nil_append]
      rw [psc_esc_u (hexVal_digitChar hdiv) (hexVal_digitChar hmod) hlt, harith, hc]
      simp [consChar, ih]
    · simp only [escapeChar, h1, h2, h3, h4, h5, h6, h7, h8, if_false, ite_false,
        List.singleton_append, List.cons_append]
      rw [psc_other h1 h2]
      simp [consChar, ih]

theorem parseJString_jstr (s : String) (rest : List Char) :
    parseJString (jstr s ++ rest) = some (s, rest) := by
  show parseJString ('"' :: (escapeList s.data ++ ['"']) ++ rest) = _
  have : (escapeList s.data ++ ['"']) ++ rest = escapeList s.data ++ '"' :: rest := by
    simp
  simp only [List.cons_append, this, parseJString, parse_escapeList]

theorem skipWs_space (l : List Char) : skipWs (' ' :: l) = skipWs l := by
  simp [skipWs, List.dropWhile, isWsChar]

theorem skipWs_jstr (s : String) (l : List Char) :
    skipWs (jstr s ++ l) = jstr s ++ l :=
  skipWs_cons (by decide) _

theorem expectChar_cons_self (c : Char) (r : List Char) :
    expectChar c (c :: r) = some r := by
  simp [expectChar]

theorem renderMeta_head (m : MigrationMeta) (l : List Char) :
    skipWs (renderMeta m ++ l) = renderMeta m ++ l :=
  skipWs_cons (by decide) _

theorem parseMeta_render (m : MigrationMeta) (rest : List Char) :
    parseMeta (renderMeta m ++ rest) = some (m, rest) := by
  show parseMeta ('{' :: '\n' ::
    ((sp 8 ++ jstr "name" ++ ':' :: ' ' :: (jstr m.name ++ '\n' :: (sp 6 ++ ['}']))) ++ rest)) = _
  rw [parseMeta]
  rw [skipWs_cons (by decide)]
  simp only [List.append_assoc, List.cons_append, List.singleton_append]
  rw [skipWs_nl, skipWs_sp, skipWs_jstr, parseJString_jstr]
  simp only []
  simp +decide only [ite_true, eq_self_iff_true]
  rw [skipWs_cons (by decide), expectChar_cons_self]
  simp only []
  rw [skipWs_space, skipWs_jstr, parseJString_jstr]
  simp only []
  rw [skipWs_nl, skipWs_sp, skipWs_cons (by decide), expectChar_cons_self]
  simp

theorem renderMetasItems_head (ms : List MigrationMeta) (hms : ms ≠ []) (l : List Char) :
    skipWs (renderMetasItems ms ++ l) = renderMetasItems ms ++ l := by
  match ms with
  | [m] =>
    show skipWs (renderMeta m ++ l) = renderMeta m ++ l
    exact renderMeta_head m l
  | m :: m2 :: t =>
    have hr : renderMetasItems (m :: m2 :: t) =
        renderMeta m ++ ',' :: '\n' :: (sp 6 ++ renderMetasItems (m2 :: t)) := rfl
    rw [hr, List.append_assoc]
    exact renderMeta_head m _

theorem parseMetaItems_render (ms : List MigrationMeta) (hms : ms ≠ []) :
    ∀ (fuel : Nat), ms.length < fuel → ∀ (rest : List Char),
      parseMetaItems fuel (renderMetasItems ms ++ '\n' :: (sp 4 ++ (']' :: rest))) =
        some (ms, rest) := by
  induction ms with
  | nil => exact absurd rfl hms
  | cons m t ih =>
    intro fuel hfuel rest
    match fuel, hfuel with
    | fuel + 1, hfuel =>
      match t with
      | [] =>
        show parseMetaItems (fuel + 1) (renderMeta m ++ '\n' :: (sp 4 ++ (']' :: rest))) = _
        rw [parseMetaItems.eq_def]
        simp only []
        rw [parseMeta_render]
        simp only []
        rw [skipWs_nl, skipWs_sp, skipWs_cons (by decide)]
        simp only []
      | m2 :: t2 =>
        have hr : renderMetasItems (m :: m2 :: t2) =
            renderMeta m ++ ',' :: '\n' :: (sp 6 ++ renderMetasItems (m2 :: t2)) := rfl
        rw [hr]
        rw [parseMetaItems.eq_def]
        simp only [List.append_assoc, List.cons_append]
        rw [parseMeta_render]
        simp only []
        rw [skipWs_cons (by decide)]
        simp only []
        have ht2 : (m2 :: t2) ≠ ([] : List MigrationMeta) := by simp
        have hlen : (m2 :: t2).length < fuel := by
          simp only [List.length_cons] at hfuel ⊢
          omega
        rw [skipWs_nl, skipWs_sp, renderMetasItems_head _ ht2, ih ht2 fuel hlen rest]

theorem parseMetaArray_ws (fuel : Nat) (l : List Char) :
    parseMetaArray fuel (' ' :: l) = parseMetaArray fuel l := by
  rw [parseMetaArray.eq_def, parseMetaArray.eq_def, skipWs_space]

theorem parseMetaArray_render (ms : List MigrationMeta) (fuel : Nat)
    (h : ms.length < fuel) (rest : List Char) :
    parseMetaArray fuel (renderArray ms ++ rest) = some (ms, rest) := by
  match ms with
  | [] =>
    show parseMetaArray fuel ('[' :: ']' :: rest) = _
    rw [parseMetaArray.eq_def]
    rw [skipWs_cons (by decide)]
    simp only []
    rw [skipWs_cons (by decide)]
    simp only []
  | m :: t =>
    show parseMetaArray fuel
      (('[' :: '\n' :: (sp 6 ++ renderMetasItems (m :: t) ++ '\n' :: (sp 4 ++ [']']))) ++ rest) = _
    have hne : (m :: t) ≠ ([] : List MigrationMeta) := by simp
    simp only [List.cons_append, List.append_assoc, List.singleton_append]
    rw [parseMetaArray.eq_def]
    rw [skipWs_cons (by decide)]
    simp only []
    rw [skipWs_nl, skipWs_sp, renderMetasItems_head _ hne]
    have hhead : ∃ u, renderMetasItems (m :: t) = '{' :: u := by
      match t with
      | [] => exact ⟨_, rfl⟩
      | m2 :: t2 => exact ⟨_, rfl⟩
    obtain ⟨u, hu⟩ := hhead
    rw [hu]
    show parseMetaItems fuel ('{' :: (u ++ '\n' :: (sp 4 ++ (']' :: rest)))) = _
    rw [← List.cons_append, ← hu]
    exact parseMetaItems_render (m :: t) hne fuel h rest

theorem parseStateObj_ws (fuel : Nat) (l : List Char) :
    parseStateObj fuel (' ' :: l) = parseStateObj fuel l := by
  rw [parseStateObj.eq_def, parseStateObj.eq_def, skipWs_space]

theorem parseStateObj_render (s : State) (fuel : Nat)
    (h : s.applied_migrations.length < fuel) (rest : List Char) :
    parseStateObj fuel (renderStateObj s ++ rest) = some (s, rest) := by
  show parseStateObj fuel ('{' :: '\n' ::
    ((sp 4 ++ jstr "applied_migrations" ++ ':' :: ' ' ::
      (renderArray s.applied_migrations ++ '\n' :: (sp 2 ++ ['}']))) ++ rest)) = _
  rw [parseStateObj.eq_def]
  rw [skipWs_cons (by decide)]
  simp only [List.append_assoc, List.cons_append, List.singleton_append]
  rw [skipWs_nl, skipWs_sp, skipWs_jstr, parseJString_jstr]
  simp only []
  simp +decide only [ite_true, eq_self_iff_true]
  rw [skipWs_cons (by decide), expectChar_cons_self]
  simp only []
  rw [parseMetaArray_ws, parseMetaArray_render _ fuel h]
  simp only []
  rw [skipWs_nl, skipWs_sp, skipWs_cons (by decide), expectChar_cons_self]
  simp

theorem parseStateRoot_render (s : State) (fuel : Nat)
    (h : s.applied_migrations.length < fuel) (rest : List Char) :
    parseStateRoot fuel (State.encode s ++ rest) = some (s, rest) := by
  show parseStateRoot fuel ('{' :: '\n' ::
    ((sp 2 ++ jstr "v1" ++ ':' :: ' ' :: (renderStateObj s ++ '\n' :: ['}'])) ++ rest)) = _
  rw [parseStateRoot.eq_def]
  rw [skipWs_cons (by decide)]
  simp only [List.append_assoc, List.cons_append, List.singleton_append]
  rw [skipWs_nl, skipWs_sp, skipWs_jstr, parseJString_jstr]
  simp only []
  simp +decide only [ite_true, eq_self_iff_true]
  rw [skipWs_cons (by decide), expectChar_cons_self]
  simp only []
  rw [parseStateObj_ws, parseStateObj_render s fuel h]
  simp only []
  rw [skipWs_nl, skipWs_cons (by decide), expectChar_cons_self]
  simp

theorem renderMeta_length (m : MigrationMeta) : 1 ≤ (renderMeta m).length := by
  simp [renderMeta]

theorem renderMetasItems_length (ms : List MigrationMeta) :
    ms.length ≤ (renderMetasItems ms).length := by
  induction ms with
  | nil => simp [renderMetasItems]
  | cons m t ih =>
    match t with
    | [] =>
      show (1 : Nat) ≤ (renderMeta m).length
      exact renderMeta_length m
    | m2 :: t2 =>
      have hr : renderMetasItems (m :: m2 :: t2) =
          renderMeta m ++ ',' :: '\n' :: (sp 6 ++ renderMetasItems (m2 :: t2)) := rfl
      have h1 := renderMeta_length m
      have h2 : (m2 :: t2).length ≤ (renderMetasItems (m2 :: t2)).length := ih
      rw [hr]
      simp only [List.length_cons] at h2
      simp only [List.length_append, List.length_cons]
      omega

theorem renderArray_length (ms : List MigrationMeta) :
    ms.length ≤ (renderArray ms).length := by
  match ms with
  | [] => simp [renderArray]
  | m :: t =>
    have h := renderMetasItems_length (m :: t)
    show (m :: t).length ≤
      ('[' :: '\n' :: (sp 6 ++ renderMetasItems (m :: t) ++ '\n' :: (sp 4 ++ [']']))).length
    simp only [List.length_cons] at h
    simp only [List.length_append, List.length_cons]
    omega

theorem encode_length (s : State) :
    s.applied_migrations.length < (State.encode s).length := by
  have h := renderArray_length s.applied_migrations
  show s.applied_migrations.length <
    ('{' :: '\n' :: (sp 2 ++ jstr "v1" ++ ':' :: ' ' ::
      (('{' :: '\n' :: (sp 4 ++ jstr "applied_migrations" ++ ':' :: ' ' ::
        (renderArray s.applied_migrations ++ '\n' :: (sp 2 ++ ['}'])))) ++ '\n' :: ['}']))).length
  simp only [List.length_append, List.length_cons]
  omega

/-- Claim C7.  The persisted-state codec round-trips: for every state `s`
(every list of applied migration names, arbitrary Unicode names included),
`State::decode(State::encode(s))` succeeds and returns exactly `s`. -/
theorem state_codec_roundtrip (s : State) :
    State.decode (State.encode s) = .ok s := by
  obtain ⟨t, ht⟩ : ∃ u, State.encode s = '{' :: u := ⟨_, rfl⟩
  have hroot : parseStateRoot ('{' :: t).length ('{' :: t) = some (s, []) := by
    have hx := parseStateRoot_render s (State.encode s).length (encode_length s) []
    rw [List.append_nil, ht] at hx
    exact hx
  rw [ht]
  unfold State.decode
  simp only []
  rw [hroot]
  simp [skipWs]

/-! Migrations and the diff algorithm (diff.rs).

`DynMigration` erases the user migration behind a name, the `TypeId` of its
declared context type (`Nat` in the model) and the two script entry points.
The scripts receive the erased registry context value and, like Rust's
`&mut Ctx`, may replace it. -/

/-- Translation of `struct DynMigration` (dyn_migration.rs): the erased
script keeps the `up`/`down` bodies of the wrapped `Migration` plus the
context type the adapter will look up in the registry. -/
structure DynMigration where
  name : String
  ctxType : Nat
  up : Ctx → Except DynError Unit × Ctx
  down : Ctx → Except DynError Unit × Ctx

/-- Model of `Iterator::position`, used for the pivot search in `diff`. -/
def listPosition (p : MigrationMeta → Bool) : List MigrationMeta → Option Nat
  | [] => none
  | x :: xs => if p x then some 0 else (listPosition p xs).map (fun i => i + 1)

/-- Translation of `struct MigrationsDiff` (diff.rs). -/
structure MigrationsDiff where
  pruned : List MigrationMeta
  completed : List DynMigration
  pending : List DynMigration

/-- Pivot computation of `diff` (diff.rs lines 22-27):
`new_list.first().and_then(|f| old_list.position(name == f.name)).unwrap_or(0)`. -/
def diffPivot (new_list : List DynMigration) (old_list : List MigrationMeta) : Nat :=
  match new_list.head? with
  | some first_new =>
    match listPosition (fun old => old.name = first_new.name) old_list with
    | some i => i
    | none => 0
  | none => 0

/-- Translation of the position-by-position `zip_longest` loop of `diff`
(diff.rs lines 30-69).  `EitherOrBoth::Both` with equal names advances,
`Both` with different names and `Left` (persisted entry left over) abort
with `InconsistentMigrationScripts`, `Right` splits off the pending tail,
and simultaneous exhaustion returns everything as completed. -/
def diffWalk : List MigrationMeta → List DynMigration →
    Except PlanBuildErrorKind (List DynMigration × List DynMigration)
  | [], [] => .ok ([], [])
  | [], n :: ns => .ok ([], n :: ns)
  | _ :: _, [] => .error .InconsistentMigrationScripts
  | o :: os, n :: ns =>
    if o.name = n.name then
      match diffWalk os ns with
      | .ok (completed, pending) => .ok (n :: completed, pending)
      | .error e => .error e
    else .error .InconsistentMigrationScripts

/-- Translation of `diff` (diff.rs).  The Rust function mutates `old_list`
in place (`split_off` + `mem::replace` leave it holding the entries that
survive pruning); the model returns that mutated list as the second
component. -/
def diff (new_list : List DynMigration) (old_list : List MigrationMeta) :
    Except PlanBuildErrorKind (MigrationsDiff × List MigrationMeta) :=
  let k := diffPivot new_list old_list
  let pruned := old_list.take k
  let remaining_old_list := old_list.drop k
  match diffWalk remaining_old_list new_list with
  | .ok (completed, pending) =>
    .ok ({ pruned := pruned, completed := completed, pending := pending },
      remaining_old_list)
  | .error e => .error e

theorem diffWalk_names_eq (P : List MigrationMeta) (pre A : List DynMigration)
    (hnames : P.map (fun m => m.name) = pre.map (fun m => m.name)) :
    diffWalk P (pre ++ A) = .ok (pre, A) := by
  induction P generalizing pre with
  | nil =>
    match pre, hnames with
    | [], _ =>
      match A with
      | [] => rfl
      | n :: ns => rfl
  | cons o os ih =>
    match pre, hnames with
    | n :: pre2, hnames =>
      simp only [List.map_cons, List.cons.injEq] at hnames
      show diffWalk (o :: os) ((n :: pre2) ++ A) = .ok (n :: pre2, A)
      rw [diffWalk.eq_def]
      simp only [List.cons_append]
      rw [if_pos hnames.1, ih pre2 hnames.2]

theorem diffWalk_ok_names (P : List MigrationMeta) (C completed pending : List DynMigration)
    (h : diffWalk P C = .ok (completed, pending)) :
    completed.map (fun m => m.name) = P.map (fun m => m.name) := by
  induction P generalizing C completed pending with
  | nil =>
    match C with
    | [] =>
      simp only [diffWalk, Except.ok.injEq, Prod.mk.injEq] at h
      rw [← h.1]
      simp
    | n :: ns =>
      simp only [diffWalk, Except.ok.injEq, Prod.mk.injEq] at h
      rw [← h.1]
      simp
  | cons o os ih =>
    match C with
    | [] => simp [diffWalk] at h
    | n :: ns =>
      rw [diffWalk.eq_def] at h
      simp only [] at h
      by_cases hn : o.name = n.name
      · rw [if_pos hn] at h
        match hw : diffWalk os ns with
        | .ok (c2, p2) =>
          rw [hw] at h
          simp only [Except.ok.injEq, Prod.mk.injEq] at h
          rw [← h.1]
          simp only [List.map_cons]
          rw [ih ns c2 p2 hw, hn]
        | .error e =>
          rw [hw] at h
          simp at h
      · rw [if_neg hn] at h
        simp at h

theorem diffWalk_inconsistent (olds : List MigrationMeta) (news : List DynMigration)
    (h : (∃ i, ∃ (h1 : i < olds.length) (h2 : i < news.length),
            (olds.get ⟨i, h1⟩).name ≠ (news.get ⟨i, h2⟩).name)
         ∨ news.length < olds.length) :
    diffWalk olds news = .error .InconsistentMigrationScripts := by
  induction olds generalizing news with
  | nil =>
    rcases h with ⟨i, h1, _, _⟩ | hlen
    · exact absurd h1 (by simp)
    · exact absurd hlen (by simp)
  | cons o os ih =>
    match news with
    | [] => rfl
    | n :: ns =>
      by_cases hn : o.name = n.name
      · have hrec : diffWalk os ns = .error .InconsistentMigrationScripts := by
          apply ih
          rcases h with ⟨i, h1, h2, hne⟩ | hlen
          · match i with
            | 0 => exact absurd hn hne
            | j + 1 =>
              left
              refine ⟨j, ?_, ?_, ?_⟩
              · simp only [List.length_cons] at h1
                omega
              · simp only [List.length_cons] at h2
                omega
              · exact hne
          · right
            simp only [List.length_cons] at hlen
            omega
        rw [diffWalk.eq_def]
        simp only []
        rw [if_pos hn, hrec]
      · rw [diffWalk.eq_def]
        simp only []
        rw [if_neg hn]

/-- Fixture migration whose scripts succeed without touching the context;
used to instantiate theorems at concrete inputs. -/
def mkMig (nm : String) : DynMigration :=
  { name := nm, ctxType := 0,
    up := fun c => (Except.ok (), c),
    down := fun c => (Except.ok (), c) }

/-- Claim C5.  For every persisted list `P` and configured list `C = pre ++ A`
whose prefix `pre` matches `P` name-for-name and whose tail `A` is disjoint
from `P` (including `A = []`), `diff` succeeds with `pruned = []`,
`completed = pre` and `pending = A`, leaving the persisted list untouched.
(The disjointness hypothesis is stated as the claim states it; the walk
compares positionally, so the proof holds even without it.) -/
theorem diff_append_only (P : List MigrationMeta) (pre A : List DynMigration)
    (hnames : P.map (fun m => m.name) = pre.map (fun m => m.name))
    (hdisj : ∀ nm ∈ A.map (fun m => m.name), nm ∉ P.map (fun m => m.name)) :
    diff (pre ++ A) P =
      .ok ({ pruned := [], completed := pre, pending := A }, P) := by
  have hwalk := diffWalk_names_eq P pre A hnames
  have hpivot : diffPivot (pre ++ A) P = 0 := by
    match pre with
    | [] =>
      have hP : P = [] := by
        cases P with
        | nil => rfl
        | cons q P2 => simp at hnames
      subst hP
      cases A with
      | nil => rfl
      | cons a as => rfl
    | p :: pre2 =>
      cases P with
      | nil => simp at hnames
      | cons q P2 =>
        simp only [List.map_cons, List.cons.injEq] at hnames
        show diffPivot ((p :: pre2) ++ A) (q :: P2) = 0
        simp [diffPivot, listPosition, hnames.1]
  simp only [diff, hpivot, List.take_zero, List.drop_zero]
  rw [hwalk]

/-- Witness for claim C5 at a concrete input. -/
theorem diff_append_only_witness :
    diff ([mkMig "mig-a"] ++ [mkMig "mig-b"]) [⟨"mig-a"⟩] =
      .ok ({ pruned := [], completed := [mkMig "mig-a"], pending := [mkMig "mig-b"] },
        [⟨"mig-a"⟩]) :=
  diff_append_only [⟨"mig-a"⟩] [mkMig "mig-a"] [mkMig "mig-b"] (by decide) (by decide)

/-- Counterexample for claim C4: with a non-empty persisted list and an
empty configured list the code does not prune everything; the
`unwrap_or(0)` pivot leaves the whole persisted list in place and the walk
hits the `EitherOrBoth::Left` arm, so `diff` fails with
`InconsistentMigrationScripts` instead of succeeding. -/
theorem diff_empty_config_cex :
    diff ([] : List DynMigration) [⟨"mig-0"⟩] =
      .error .InconsistentMigrationScripts := rfl

/-- Claim C4 (amended).  For every non-empty persisted list `P`, running
`diff` with an empty configured list fails with
`InconsistentMigrationScripts`: the pivot is `unwrap_or(0)`, so nothing is
pruned and the leftover persisted entries trigger the missing-script arm. -/
theorem diff_empty_config_inconsistent (P : List MigrationMeta) (h : P ≠ []) :
    diff ([] : List DynMigration) P = .error .InconsistentMigrationScripts := by
  match P, h with
  | q :: P2, _ => rfl

/-- Witness for the amended claim C4 at a concrete input. -/
theorem diff_empty_config_inconsistent_witness :
    diff ([] : List DynMigration) [⟨"mig-0"⟩, ⟨"mig-1"⟩] =
      .error .InconsistentMigrationScripts :=
  diff_empty_config_inconsistent [⟨"mig-0"⟩, ⟨"mig-1"⟩] (by decide)

/-- Claim C6.  After pruning the pivot prefix, the positional walk of the
remaining persisted list `P' = P.drop k` against the configured list `C`
fails with `InconsistentMigrationScripts` whenever some position carries
different names or `P'` is strictly longer than `C`; in every such case
`diff` returns the error rather than any classification. -/
theorem diff_mismatch_or_longer_inconsistent (C : List DynMigration) (P : List MigrationMeta)
    (h : (∃ i, ∃ (h1 : i < (P.drop (diffPivot C P)).length) (h2 : i < C.length),
            ((P.drop (diffPivot C P)).get ⟨i, h1⟩).name ≠ (C.get ⟨i, h2⟩).name)
         ∨ C.length < (P.drop (diffPivot C P)).length) :
    diff C P = .error .InconsistentMigrationScripts := by
  have hw := diffWalk_inconsistent (P.drop (diffPivot C P)) C h
  simp only [diff]
  rw [hw]

/-- Witness for claim C6 at a concrete input (a name mismatch at
position 1 after a pivot of 0). -/
theorem diff_mismatch_witness :
    diff [mkMig "mig-a", mkMig "mig-X"] [⟨"mig-a"⟩, ⟨"mig-b"⟩] =
      .error .InconsistentMigrationScripts :=
  diff_mismatch_or_longer_inconsistent _ _ (Or.inl ⟨1, by decide, by decide, by decide⟩)

/-! Context registry (dyn_migration.rs).

`CtxRegistry` wraps an `anymap`: at most one entry per context type, keyed
by the Rust `TypeId` (a `Nat` here).  Providers are `async` constructors
whose outcomes the model records as data: the commit-mode constructor's
result and the optional no-commit-mode result (`none` models a provider
that declines no-commit mode). -/

/-- Translation of `trait MigrationCtxProvider` (dyn_migration.rs): the
outcome of `create_in_commit_mode` and of `create_in_no_commit_mode`. -/
structure MigrationCtxProvider where
  create_in_commit_mode : Except DynError Ctx
  create_in_no_commit_mode : Option (Except DynError Ctx)
deriving DecidableEq

/-- Translation of `enum CtxRegistryEntry` (dyn_migration.rs).  The
`Option` inside `Uninit` models the in-place `provider.take()`: after a
failed construction the provider is gone but the entry is still
`Uninit`. -/
inductive CtxRegistryEntry
  | Uninit (provider : Option MigrationCtxProvider)
  | Init (ctx : Ctx)
  | CtxLacksNoCommitMode
deriving DecidableEq

/-- Translation of `struct CtxRegistry` (dyn_migration.rs): the anymap,
as an association list keyed by context type id. -/
def CtxRegistry := List (Nat × CtxRegistryEntry)

instance : DecidableEq CtxRegistry :=
  inferInstanceAs (DecidableEq (List (Nat × CtxRegistryEntry)))

/-- Lookup of the entry stored for a type id (`anymap::Map::get_mut`). -/
def CtxRegistry.lookup (reg : CtxRegistry) (tid : Nat) : Option CtxRegistryEntry :=
  match reg with
  | [] => none
  | (k, e) :: rest => if k = tid then some e else CtxRegistry.lookup rest tid

/-- In-place replacement of the entry stored for a type id (the `&mut`
writes `*entry = ...` / `set_init` perform on the map's slot). -/
def CtxRegistry.set (reg : CtxRegistry) (tid : Nat) (v : CtxRegistryEntry) : CtxRegistry :=
  match reg with
  | [] => []
  | (k, e) :: rest =>
    if k = tid then (k, v) :: rest else (k, e) :: CtxRegistry.set rest tid v

/-- Panic sites of the executor, distinguished so that theorems can tell
the `assert_eq!`/`unwrap` in the `Down` loop apart from the registry's
fail-fast panics. -/
inductive PanicReason
  | assertPop
  | missingProvider
  | providerGone
deriving DecidableEq

/-- Result of `CtxRegistry::get_mut`: the borrowed context, an error, or a
panic (no provider registered for the type / provider already consumed by
an earlier failed construction). -/
inductive GetCtxResult
  | ok (ctx : Ctx)
  | err (e : PlanExecErrorKind)
  | panicked (reason : PanicReason)
deriving DecidableEq

/-- Translation of `CtxRegistry::get_mut` (dyn_migration.rs lines 129-170).
Returns the result, the registry afterwards, and whether a provider
constructor was invoked during this call. -/
def CtxRegistry.get_mut (reg : CtxRegistry) (tid : Nat) (run_mode : MigrationRunMode) :
    GetCtxResult × CtxRegistry × Bool :=
  match reg.lookup tid with
  | none => (.panicked .missingProvider, reg, false)
  | some (.Init ctx) => (.ok ctx, reg, false)
  | some .CtxLacksNoCommitMode => (.err .CtxLacksNoCommitMode, reg, false)
  | some (.Uninit none) => (.panicked .providerGone, reg, false)
  | some (.Uninit (some provider)) =>
    match run_mode with
    | .Commit =>
      match provider.create_in_commit_mode with
      | .ok ctx => (.ok ctx, reg.set tid (.Init ctx), true)
      | .error e =>
        (.err (.CreateMigrationCtx e run_mode tid), reg.set tid (.Uninit none), true)
    | .NoCommit =>
      match provider.create_in_no_commit_mode with
      | none => (.err .CtxLacksNoCommitMode, reg.set tid .CtxLacksNoCommitMode, true)
      | some (.ok ctx) => (.ok ctx, reg.set tid (.Init ctx), true)
      | some (.error e) =>
        (.err (.CreateMigrationCtx e run_mode tid), reg.set tid (.Uninit none), true)

/-- Trace of a sequence of `get_mut` calls: the type ids whose provider
constructor got invoked, in call order. -/
def getMutTrace (reg : CtxRegistry) : List (Nat × MigrationRunMode) → List Nat
  | [] => []
  | (tid, rm) :: rest =>
    (if (reg.get_mut tid rm).2.2 then [tid] else []) ++
      getMutTrace (reg.get_mut tid rm).2.1 rest

/-- Whether the slot for a type currently holds an unconsumed provider. -/
def entryHasProvider (e : Option CtxRegistryEntry) : Bool :=
  match e with
  | some (.Uninit (some _)) => true
  | _ => false

theorem lookup_set_self (reg : CtxRegistry) (tid : Nat) (v : CtxRegistryEntry) :
    (reg.set tid v).lookup tid = (reg.lookup tid).map (fun _ => v) := by
  induction reg with
  | nil => rfl
  | cons kv rest ih =>
    obtain ⟨k, e⟩ := kv
    by_cases hk : k = tid
    · simp [CtxRegistry.set, CtxRegistry.lookup, hk]
    · simp [CtxRegistry.set, CtxRegistry.lookup, hk, ih]

theorem lookup_set_other (reg : CtxRegistry) (tid tid' : Nat) (v : CtxRegistryEntry)
    (h : tid' ≠ tid) : (reg.set tid v).lookup tid' = reg.lookup tid' := by
  induction reg with
  | nil => rfl
  | cons kv rest ih =>
    obtain ⟨k, e⟩ := kv
    by_cases hk : k = tid
    · subst hk
      have hne : ¬(k = tid') := fun he => h he.symm
      simp [CtxRegistry.set, CtxRegistry.lookup, hne]
    · by_cases hk2 : k = tid' <;> simp [CtxRegistry.set, CtxRegistry.lookup, hk, hk2, h, ih]

theorem get_mut_invoked_hasProvider (reg : CtxRegistry) (tid : Nat) (rm : MigrationRunMode)
    (h : (reg.get_mut tid rm).2.2 = true) : entryHasProvider (reg.lookup tid) = true := by
  match hl : reg.lookup tid with
  | none => simp [CtxRegistry.get_mut, hl] at h
  | some (.Init c) => simp [CtxRegistry.get_mut, hl] at h
  | some .CtxLacksNoCommitMode => simp [CtxRegistry.get_mut, hl] at h
  | some (.Uninit none) => simp [CtxRegistry.get_mut, hl] at h
  | some (.Uninit (some p)) => simp [entryHasProvider, hl]

theorem get_mut_invoked_clears (reg : CtxRegistry) (tid : Nat) (rm : MigrationRunMode)
    (h : (reg.get_mut tid rm).2.2 = true) :
    entryHasProvider (((reg.get_mut tid rm).2.1).lookup tid) = false := by
  match hl : reg.lookup tid with
  | none => simp [CtxRegistry.get_mut, hl] at h
  | some (.Init c) => simp [CtxRegistry.get_mut, hl] at h
  | some .CtxLacksNoCommitMode => simp [CtxRegistry.get_mut, hl] at h
  | some (.Uninit none) => simp [CtxRegistry.get_mut, hl] at h
  | some (.Uninit (some p)) =>
    match rm with
    | .Commit =>
      match hc : p.create_in_commit_mode with
      | .ok c => simp [CtxRegistry.get_mut, hl, hc, lookup_set_self, entryHasProvider]
      | .error e => simp [CtxRegistry.get_mut, hl, hc, lookup_set_self, entryHasProvider]
    | .NoCommit =>
      match hc : p.create_in_no_commit_mode with
      | none => simp [CtxRegistry.get_mut, hl, hc, lookup_set_self, entryHasProvider]
      | some (.ok c) => simp [CtxRegistry.get_mut, hl, hc, lookup_set_self, entryHasProvider]
      | some (.error e) => simp [CtxRegistry.get_mut, hl, hc, lookup_set_self, entryHasProvider]

theorem get_mut_preserves_noProvider (reg : CtxRegistry) (tid' : Nat) (rm : MigrationRunMode)
    (tid : Nat) (h : entryHasProvider (reg.lookup tid) = false) :
    entryHasProvider (((reg.get_mut tid' rm).2.1).lookup tid) = false := by
  match hl : reg.lookup tid' with
  | none => simpa [CtxRegistry.get_mut, hl] using h
  | some (.Init c) => simpa [CtxRegistry.get_mut, hl] using h
  | some .CtxLacksNoCommitMode => simpa [CtxRegistry.get_mut, hl] using h
  | some (.Uninit none) => simpa [CtxRegistry.get_mut, hl] using h
  | some (.Uninit (some p)) =>
    by_cases htid : tid = tid'
    · subst htid
      rw [hl] at h
      simp [entryHasProvider] at h
    · have hframe : ∀ v, ((reg.set tid' v).lookup tid) = reg.lookup tid :=
        fun v => lookup_set_other reg tid' tid v htid
      match rm with
      | .Commit =>
        match hc : p.create_in_commit_mode with
        | .ok c => simpa [CtxRegistry.get_mut, hl, hc, hframe] using h
        | .error e => simpa [CtxRegistry.get_mut, hl, hc, hframe] using h
      | .NoCommit =>
        match hc : p.create_in_no_commit_mode with
        | none => simpa [CtxRegistry.get_mut, hl, hc, hframe] using h
        | some (.ok c) => simpa [CtxRegistry.get_mut, hl, hc, hframe] using h
        | some (.error e) => simpa [CtxRegistry.get_mut, hl, hc, hframe] using h

theorem trace_count_zero (calls : List (Nat × MigrationRunMode)) :
    ∀ (reg : CtxRegistry) (tid : Nat), entryHasProvider (reg.lookup tid) = false →
      (getMutTrace reg calls).count tid = 0 := by
  induction calls with
  | nil => intro reg tid _; simp [getMutTrace]
  | cons c rest ih =>
    intro reg tid h
    obtain ⟨tid', rm⟩ := c
    simp only [getMutTrace, List.count_append]
    have hrest : (getMutTrace (reg.get_mut tid' rm).2.1 rest).count tid = 0 :=
      ih _ tid (get_mut_preserves_noProvider reg tid' rm tid h)
    by_cases hinv : (reg.get_mut tid' rm).2.2 = true
    · have hne : tid' ≠ tid := by
        intro he
        subst he
        rw [get_mut_invoked_hasProvider reg tid' rm hinv] at h
        cases h
      simp [hinv, hrest, List.count_cons, hne]
    · simp only [Bool.not_eq_true] at hinv
      simp [hinv, hrest]

/-- Claim C8.  The context registry invokes each registered provider at
most once: `get_mut` on an `Init` entry returns the stored context without
calling the provider and without touching the registry; `get_mut` on a
`CtxLacksNoCommitMode` entry re-returns the recoverable sentinel without
calling the provider; and across any sequence of `get_mut` calls the
provider of any given context type is invoked at most once. -/
theorem ctx_registry_provider_once :
    (∀ (reg : CtxRegistry) (tid : Nat) (rm : MigrationRunMode) (c : Ctx),
        reg.lookup tid = some (.Init c) → reg.get_mut tid rm = (.ok c, reg, false)) ∧
    (∀ (reg : CtxRegistry) (tid : Nat) (rm : MigrationRunMode),
        reg.lookup tid = some .CtxLacksNoCommitMode →
          reg.get_mut tid rm = (.err .CtxLacksNoCommitMode, reg, false)) ∧
    (∀ (reg : CtxRegistry) (calls : List (Nat × MigrationRunMode)) (tid : Nat),
        (getMutTrace reg calls).count tid ≤ 1) := by
  refine ⟨?_, ?_, ?_⟩
  · intro reg tid rm c hl
    simp [CtxRegistry.get_mut, hl]
  · intro reg tid rm hl
    simp [CtxRegistry.get_mut, hl]
  · intro reg calls tid
    induction calls generalizing reg with
    | nil => simp [getMutTrace]
    | cons c rest ih =>
      obtain ⟨tid', rm⟩ := c
      simp only [getMutTrace, List.count_append]
      by_cases hinv : (reg.get_mut tid' rm).2.2 = true
      · by_cases htid : tid' = tid
        · subst htid
          have hclear := get_mut_invoked_clears reg tid' rm hinv
          have hrest := trace_count_zero rest _ tid' hclear
          simp [hinv, hrest, List.count_cons]
        · have hrest := ih (reg.get_mut tid' rm).2.1
          simp only [hinv, if_true, ite_true]
          have hhead : ([tid'].count tid) = 0 := by
            simp [List.count_cons, htid]
          omega
      · simp only [Bool.not_eq_true] at hinv
        have hrest := ih (reg.get_mut tid' rm).2.1
        simpa [hinv] using hrest

/-- Witness for claim C8 at concrete registries. -/
theorem ctx_registry_provider_once_witness :
    CtxRegistry.get_mut [(0, .Init 7)] 0 .Commit = (.ok 7, [(0, .Init 7)], false) ∧
    CtxRegistry.get_mut [(0, .CtxLacksNoCommitMode)] 0 .NoCommit =
      (.err .CtxLacksNoCommitMode, [(0, .CtxLacksNoCommitMode)], false) ∧
    (getMutTrace [(0, .Uninit (some ⟨.ok 5, none⟩))] [(0, .Commit), (0, .Commit)]).count 0 ≤ 1 :=
  ⟨ctx_registry_provider_once.1 _ 0 .Commit 7 (by decide),
   ctx_registry_provider_once.2.1 _ 0 .NoCommit (by decide),
   ctx_registry_provider_once.2.2 _ _ 0⟩

/-! Plan executor (lib.rs).

The state backend (`StateLock` / `StateGuard` / `StateClient`) is the
trait boundary of the engine; `exec` models its two epilogue calls by an
`ExecEnv` carrying the backend's outcome for `update` and `unlock` and by
an event trace recording each call made, in order.  A `panicked` outcome
propagates like Rust unwinding: the epilogue does not run. -/

/-- Outcome of a script invocation, or of the whole `try_exec` loop. -/
inductive ScriptOutcome
  | ok
  | err (e : PlanExecErrorKind)
  | panicked (reason : PanicReason)
deriving DecidableEq

/-- Whether an outcome is a panic (Rust unwinding). -/
def ScriptOutcome.isPanic : ScriptOutcome → Bool
  | .panicked _ => true
  | _ => false

/-- Translation of the blanket `impl<Mig: Migration> DynMigrationScript for
Mig` (dyn_migration.rs lines 90-100): look the context up in the registry,
run `up`/`down` on it (the `&mut` context mutation is written back), and
wrap script failures in `ExecMigrationScript`. -/
def DynMigration.execScript (m : DynMigration) (reg : CtxRegistry)
    (run_mode : MigrationRunMode) (direction : MigrationDirection) :
    ScriptOutcome × CtxRegistry :=
  match reg.get_mut m.ctxType run_mode with
  | (.panicked r, reg2, _) => (.panicked r, reg2)
  | (.err e, reg2, _) => (.err e, reg2)
  | (.ok ctx, reg2, _) =>
    let res := match direction with
      | .Up => m.up ctx
      | .Down => m.down ctx
    let reg3 := reg2.set m.ctxType (.Init res.2)
    match res.1 with
    | .ok _ => (.ok, reg3)
    | .error e => (.err (.ExecMigrationScript e), reg3)

/-- Translation of `Plan::exec_migration` (lib.rs lines 310-326): a
`CtxLacksNoCommitMode` error from the script adapter is converted into a
successful skip; everything else passes through. -/
def Plan.exec_migration (reg : CtxRegistry) (run_mode : MigrationRunMode)
    (direction : MigrationDirection) (m : DynMigration) :
    ScriptOutcome × CtxRegistry :=
  match m.execScript reg run_mode direction with
  | (.err .CtxLacksNoCommitMode, reg2) => (.ok, reg2)
  | other => other

/-- Translation of `enum PlanKind` (lib.rs). -/
inductive PlanKind
  | Up (migrations : List DynMigration)
  | Down (migrations : List DynMigration)

/-- Translation of `PlanKind::to_migration_direction`. -/
def PlanKind.to_migration_direction : PlanKind → MigrationDirection
  | .Up _ => .Up
  | .Down _ => .Down

/-- Translation of `struct StateCtx` (lib.rs); the lock guard it owns is
modelled by `ExecEnv` at the `exec` boundary. -/
structure StateCtx where
  pruned : List MigrationMeta
  state : State

/-- Translation of `struct Plan` (lib.rs). -/
structure Plan where
  ctx_registry : CtxRegistry
  state : StateCtx
  left_completed : List DynMigration
  left_pending : List DynMigration
  kind : PlanKind

/-- The `PlanKind::Up` loop of `Plan::try_exec` (lib.rs lines 282-293):
for each migration, push its name onto the in-memory applied list *before*
invoking the script; an error or panic aborts the loop. -/
def upGo (rm : MigrationRunMode) : CtxRegistry → List MigrationMeta → List DynMigration →
    ScriptOutcome × CtxRegistry × List MigrationMeta
  | reg, applied, [] => (.ok, reg, applied)
  | reg, applied, m :: rest =>
    match Plan.exec_migration reg rm .Up m with
    | (.ok, reg2) => upGo rm reg2 (applied ++ [⟨m.name⟩]) rest
    | (.err e, reg2) => (.err e, reg2, applied ++ [⟨m.name⟩])
    | (.panicked r, reg2) => (.panicked r, reg2, applied ++ [⟨m.name⟩])

/-- The `PlanKind::Down` loop of `Plan::try_exec` (lib.rs lines 295-305),
already iterating the reversed migration list: pop the tail of the
in-memory applied list and `assert_eq!` its name against the current
entry (`unwrap` of a `None` pop and a failed assertion both panic), then
invoke the script. -/
def downGo (rm : MigrationRunMode) : CtxRegistry → List MigrationMeta → List DynMigration →
    ScriptOutcome × CtxRegistry × List MigrationMeta
  | reg, applied, [] => (.ok, reg, applied)
  | reg, applied, m :: rest =>
    match applied.getLast? with
    | none => (.panicked .assertPop, reg, applied)
    | some removed =>
      if removed.name = m.name then
        match Plan.exec_migration reg rm .Down m with
        | (.ok, reg2) => downGo rm reg2 applied.dropLast rest
        | (.err e, reg2) => (.err e, reg2, applied.dropLast)
        | (.panicked r, reg2) => (.panicked r, reg2, applied.dropLast)
      else (.panicked .assertPop, reg, applied.dropLast)

/-- Translation of `Plan::try_exec` (lib.rs lines 270-308). -/
def Plan.try_exec (p : Plan) (run_mode : MigrationRunMode) : ScriptOutcome × Plan :=
  match p.kind with
  | .Up migrations =>
    match upGo run_mode p.ctx_registry p.state.state.applied_migrations migrations with
    | (r, reg2, applied2) =>
      (r, { p with
              ctx_registry := reg2
              state := { p.state with state := { applied_migrations := applied2 } } })
  | .Down migrations =>
    match downGo run_mode p.ctx_registry p.state.state.applied_migrations
        migrations.reverse with
    | (r, reg2, applied2) =>
      (r, { p with
              ctx_registry := reg2
              state := { p.state with state := { applied_migrations := applied2 } } })

/-- Backend outcomes for the two epilogue calls of `exec`
(`client.update` and `guard.unlock`); `none` is success. -/
structure ExecEnv where
  updateResult : Option DynError
  unlockResult : Option DynError
deriving DecidableEq

/-- Observable backend calls made by `exec`, in order. -/
inductive ExecEvent
  | update (bytes : List Char)
  | unlock
deriving DecidableEq

/-- Recognizer for `update` events. -/
def ExecEvent.isUpdate : ExecEvent → Bool
  | .update _ => true
  | .unlock => false

/-- Result of `Plan::exec`, with panics kept apart from the error bundle. -/
inductive ExecOutcome
  | ok
  | err (e : PlanExecError)
  | panicked (reason : PanicReason)
deriving DecidableEq

/-- Translation of `Plan::exec` (lib.rs lines 244-268): run `try_exec`,
collect its error (if any), then always call `update` with the encoded
in-memory state and `unlock`, appending their errors; return `Ok` iff the
bundle stayed empty.  A panic inside the loop unwinds, skipping the
epilogue. -/
def Plan.exec (p : Plan) (run_mode : MigrationRunMode) (env : ExecEnv) :
    ExecOutcome × List ExecEvent :=
  match p.try_exec run_mode with
  | (.panicked r, _) => (.panicked r, [])
  | (r, p2) =>
    let errors : List PlanExecErrorKind :=
      (match r with
       | .err e => [e]
       | _ => []) ++
      (match env.updateResult with
       | some e => [PlanExecErrorKind.UpdateState e]
       | none => []) ++
      (match env.unlockResult with
       | some e => [PlanExecErrorKind.UnlockState e]
       | none => [])
    (if errors.isEmpty then .ok else .err ⟨errors⟩,
     [ExecEvent.update (p2.state.state.encode), ExecEvent.unlock])

/-- Translation of `struct PlanBuilder` (lib.rs); the state lock itself is
the backend boundary, so `build` below receives the fetched bytes. -/
structure PlanBuilder where
  ctx_registry : CtxRegistry
  migrations : List DynMigration
  force_lock : Bool

/-- Translation of `enum MigrationsSelection` (lib.rs). -/
inductive MigrationsSelection
  | Up (inclusive_bound : Option String)
  | Down (inclusive_bound : String)

/-- Translation of `PlanBuilder::find_migration` (lib.rs lines 175-184). -/
def PlanBuilder.find_migration (migs : List DynMigration) (bound : String) :
    Except PlanBuildErrorKind Nat :=
  match migs.findIdx? (fun it => it.name = bound) with
  | some idx => .ok idx
  | none => .error (.UnknownMigration bound (migs.map (fun it => it.name)))

/-- Translation of `PlanBuilder::build` (lib.rs lines 124-173), past the
lock/fetch boundary: decode the fetched state, run the diff (which leaves
the pruned-away prefix out of the state the plan will carry), then slice
the plan according to the selection (`split_off` becomes `take`/`drop`). -/
def PlanBuilder.build (b : PlanBuilder) (fetched : List Char)
    (kind : MigrationsSelection) : Except PlanBuildErrorKind Plan :=
  match State.decode fetched with
  | .error e => .error e
  | .ok st =>
    match diff b.migrations st.applied_migrations with
    | .error e => .error e
    | .ok (d, applied2) =>
      match kind with
      | .Up none =>
        .ok { ctx_registry := b.ctx_registry,
              state := { pruned := d.pruned,
                         state := { applied_migrations := applied2 } },
              left_completed := d.completed, left_pending := [],
              kind := .Up d.pending }
      | .Up (some bound) =>
        match PlanBuilder.find_migration d.pending bound with
        | .error e => .error e
        | .ok idx =>
          .ok { ctx_registry := b.ctx_registry,
                state := { pruned := d.pruned,
                           state := { applied_migrations := applied2 } },
                left_completed := d.completed,
                left_pending := d.pending.drop (idx + 1),
                kind := .Up (d.pending.take (idx + 1)) }
      | .Down bound =>
        match PlanBuilder.find_migration d.completed bound with
        | .error e => .error e
        | .ok idx =>
          .ok { ctx_registry := b.ctx_registry,
                state := { pruned := d.pruned,
                           state := { applied_migrations := applied2 } },
                left_completed := d.completed.take idx,
                left_pending := d.pending,
                kind := .Down (d.completed.drop idx) }

theorem upGo_nil (rm : MigrationRunMode) (reg : CtxRegistry) (applied : List MigrationMeta) :
    upGo rm reg applied [] = (.ok, reg, applied) := rfl

theorem upGo_cons (rm : MigrationRunMode) (reg : CtxRegistry) (applied : List MigrationMeta)
    (m : DynMigration) (rest : List DynMigration) :
    upGo rm reg applied (m :: rest) =
      match Plan.exec_migration reg rm .Up m with
      | (.ok, reg2) => upGo rm reg2 (applied ++ [⟨m.name⟩]) rest
      | (.err e, reg2) => (.err e, reg2, applied ++ [⟨m.name⟩])
      | (.panicked r, reg2) => (.panicked r, reg2, applied ++ [⟨m.name⟩]) := rfl

theorem downGo_cons (rm : MigrationRunMode) (reg : CtxRegistry) (applied : List MigrationMeta)
    (m : DynMigration) (rest : List DynMigration) :
    downGo rm reg applied (m :: rest) =
      match applied.getLast? with
      | none => (.panicked .assertPop, reg, applied)
      | some removed =>
        if removed.name = m.name then
          match Plan.exec_migration reg rm .Down m with
          | (.ok, reg2) => downGo rm reg2 applied.dropLast rest
          | (.err e, reg2) => (.err e, reg2, applied.dropLast)
          | (.panicked r, reg2) => (.panicked r, reg2, applied.dropLast)
        else (.panicked .assertPop, reg, applied.dropLast) := rfl

theorem upGo_extends (l : List DynMigration) (rm : MigrationRunMode) :
    ∀ (reg : CtxRegistry) (applied : List MigrationMeta),
      ∃ t, (upGo rm reg applied l).2.2 = applied ++ t := by
  induction l with
  | nil =>
    intro reg applied
    exact ⟨[], by simp [upGo_nil]⟩
  | cons m rest ih =>
    intro reg applied
    rw [upGo_cons]
    rcases hx : Plan.exec_migration reg rm .Up m with ⟨res, reg2⟩
    match res with
    | .ok =>
      simp only []
      obtain ⟨t, ht⟩ := ih reg2 (applied ++ [⟨m.name⟩])
      exact ⟨[⟨m.name⟩] ++ t, by rw [ht, List.append_assoc]⟩
    | .err e => exact ⟨[⟨m.name⟩], rfl⟩
    | .panicked r => exact ⟨[⟨m.name⟩], rfl⟩

theorem upGo_fail_at (migs : List DynMigration) (rm : MigrationRunMode) :
    ∀ (k : Nat) (reg : CtxRegistry) (applied : List MigrationMeta) (e : PlanExecErrorKind)
      (hk : k < migs.length),
      (upGo rm reg applied (migs.take k)).1 = .ok →
      (Plan.exec_migration (upGo rm reg applied (migs.take k)).2.1 rm .Up
          (migs.get ⟨k, hk⟩)).1 = .err e →
      upGo rm reg applied migs =
        (.err e,
         (Plan.exec_migration (upGo rm reg applied (migs.take k)).2.1 rm .Up
            (migs.get ⟨k, hk⟩)).2,
         applied ++ (migs.take (k + 1)).map (fun m => (⟨m.name⟩ : MigrationMeta))) := by
  induction migs with
  | nil =>
    intro k reg applied e hk
    exact absurd hk (by simp)
  | cons m rest ih =>
    intro k reg applied e hk hpre hfail
    match k with
    | 0 =>
      simp only [List.take_zero, upGo_nil] at hpre hfail
      rcases hx : Plan.exec_migration reg rm .Up m with ⟨res, reg2⟩
      have hres : res = .err e := by
        have := hfail
        rw [show (m :: rest).get ⟨0, hk⟩ = m from rfl] at this
        rw [hx] at this
        exact this
      subst hres
      rw [upGo_cons, hx]
      simp only [List.take_zero, upGo_nil]
      rw [show (m :: rest).get ⟨0, hk⟩ = m from rfl, hx]
      simp [List.take_succ_cons]
    | j + 1 =>
      have htake : (m :: rest).take (j + 1) = m :: rest.take j := rfl
      rw [htake, upGo_cons] at hpre hfail
      rcases hx : Plan.exec_migration reg rm .Up m with ⟨res, reg2⟩
      rw [hx] at hpre hfail
      match res with
      | .err e2 => simp at hpre
      | .panicked r => simp at hpre
      | .ok =>
        simp only [] at hpre hfail
        have hk2 : j < rest.length := by
          simp only [List.length_cons] at hk
          omega
        have hget : (m :: rest).get ⟨j + 1, hk⟩ = rest.get ⟨j, hk2⟩ := rfl
        rw [hget] at hfail
        have := ih j reg2 (applied ++ [⟨m.name⟩]) e hk2 hpre hfail
        rw [upGo_cons, hx]
        simp only []
        rw [this]
        have hmap : ((m :: rest).take (j + 2)).map (fun m => (⟨m.name⟩ : MigrationMeta)) =
            ⟨m.name⟩ :: (rest.take (j + 1)).map (fun m => (⟨m.name⟩ : MigrationMeta)) := rfl
        rw [hmap, htake, upGo_cons, hx]
        simp only []
        rw [hget]
        simp [List.append_assoc]

theorem get_mut_not_assert (reg : CtxRegistry) (tid : Nat) (rm : MigrationRunMode) :
    (reg.get_mut tid rm).1 ≠ .panicked .assertPop := by
  match hl : reg.lookup tid with
  | none => simp [CtxRegistry.get_mut, hl]
  | some (.Init c) => simp [CtxRegistry.get_mut, hl]
  | some .CtxLacksNoCommitMode => simp [CtxRegistry.get_mut, hl]
  | some (.Uninit none) => simp [CtxRegistry.get_mut, hl]
  | some (.Uninit (some p)) =>
    match rm with
    | .Commit =>
      match hc : p.create_in_commit_mode with
      | .ok c => simp [CtxRegistry.get_mut, hl, hc]
      | .error e => simp [CtxRegistry.get_mut, hl, hc]
    | .NoCommit =>
      match hc : p.create_in_no_commit_mode with
      | none => simp [CtxRegistry.get_mut, hl, hc]
      | some (.ok c) => simp [CtxRegistry.get_mut, hl, hc]
      | some (.error e) => simp [CtxRegistry.get_mut, hl, hc]

theorem execScript_not_assert (m : DynMigration) (reg : CtxRegistry)
    (rm : MigrationRunMode) (dir : MigrationDirection) :
    (m.execScript reg rm dir).1 ≠ .panicked .assertPop := by
  have hg := get_mut_not_assert reg m.ctxType rm
  rcases hx : reg.get_mut m.ctxType rm with ⟨gr, reg2, inv⟩
  rw [hx] at hg
  simp only [] at hg
  match gr with
  | .panicked r =>
    simp only [DynMigration.execScript, hx]
    intro hc
    simp only [ScriptOutcome.panicked.injEq] at hc
    exact hg (by rw [hc])
  | .err e => simp [DynMigration.execScript, hx]
  | .ok ctx =>
    simp only [DynMigration.execScript, hx]
    match hres : (match dir with
        | MigrationDirection.Up => m.up ctx
        | MigrationDirection.Down => m.down ctx).1 with
    | .ok _ => simp [hres]
    | .error e => simp [hres]

theorem exec_migration_not_assert (reg : CtxRegistry) (rm : MigrationRunMode)
    (dir : MigrationDirection) (m : DynMigration) :
    (Plan.exec_migration reg rm dir m).1 ≠ .panicked .assertPop := by
  have hs := execScript_not_assert m reg rm dir
  rcases hx : m.execScript reg rm dir with ⟨res, reg2⟩
  rw [hx] at hs
  simp only [] at hs
  match res with
  | .ok => simp [Plan.exec_migration, hx]
  | .panicked r => simp only [Plan.exec_migration, hx]; exact hs
  | .err e =>
    match e with
    | .CtxLacksNoCommitMode => simp [Plan.exec_migration, hx]
    | .ExecMigrationScript s => simp [Plan.exec_migration, hx]
    | .UnlockState s => simp [Plan.exec_migration, hx]
    | .UpdateState s => simp [Plan.exec_migration, hx]
    | .CreateMigrationCtx s r t => simp [Plan.exec_migration, hx]

theorem map_name_append_last (applied : List MigrationMeta) :
    ∀ (L : List String) (nm : String),
      applied.map (fun m => m.name) = L ++ [nm] →
      applied.getLast? = some ⟨nm⟩ ∧
        (applied.dropLast).map (fun m => m.name) = L := by
  induction applied with
  | nil =>
    intro L nm h
    exact absurd h (by simp)
  | cons x rest ih =>
    intro L nm h
    match rest with
    | [] =>
      match L with
      | [] =>
        simp only [List.map_cons, List.map_nil, List.nil_append, List.cons.injEq] at h
        constructor
        · show some x = some ⟨nm⟩
          rw [← h.1]
        · simp
      | a :: L2 =>
        have := congrArg List.length h
        simp only [List.length_map, List.length_cons, List.length_append,
          List.length_nil] at this
        omega
    | y :: rest2 =>
      match L with
      | [] =>
        have := congrArg List.length h
        simp only [List.length_map, List.length_cons, List.length_append,
          List.length_nil] at this
        omega
      | a :: L2 =>
        simp only [List.map_cons, List.cons_append, List.cons.injEq] at h
        obtain ⟨hxa, h2⟩ := h
        obtain ⟨hlast, hdrop⟩ := ih L2 nm h2
        constructor
        · show (x :: y :: rest2).getLast? = some ⟨nm⟩
          rw [List.getLast?_cons_cons]
          exact hlast
        · have hd : (x :: y :: rest2).dropLast = x :: (y :: rest2).dropLast := rfl
          rw [hd]
          simp only [List.map_cons]
          rw [hdrop, hxa]

theorem downGo_no_assert (rsuf : List DynMigration) (rm : MigrationRunMode) :
    ∀ (applied : List MigrationMeta) (L : List String) (reg : CtxRegistry),
      applied.map (fun m => m.name) = L ++ (rsuf.reverse).map (fun m => m.name) →
      (downGo rm reg applied rsuf).1 ≠ .panicked .assertPop := by
  induction rsuf with
  | nil =>
    intro applied L reg h
    simp [downGo]
  | cons m rest2 ih =>
    intro applied L reg h
    have hmap : applied.map (fun m => m.name) =
        (L ++ ((rest2.reverse).map (fun m => m.name))) ++ [m.name] := by
      rw [h, List.reverse_cons, List.map_append]
      simp [List.append_assoc]
    obtain ⟨hlast, hdrop⟩ := map_name_append_last applied _ _ hmap
    rw [downGo_cons, hlast]
    simp only []
    simp only [if_true, ite_true]
    have hna := exec_migration_not_assert reg rm .Down m
    rcases hx : Plan.exec_migration reg rm .Down m with ⟨res, reg2⟩
    rw [hx] at hna
    simp only [] at hna
    match res with
    | .ok =>
      simp only []
      exact ih applied.dropLast L reg2 hdrop
    | .err e => simp
    | .panicked r =>
      simp only []
      exact hna

theorem diff_ok_names (C : List DynMigration) (P : List MigrationMeta)
    (d : MigrationsDiff) (rem : List MigrationMeta)
    (h : diff C P = .ok (d, rem)) :
    d.completed.map (fun m => m.name) = rem.map (fun m => m.name) := by
  simp only [diff] at h
  match hw : diffWalk (P.drop (diffPivot C P)) C with
  | .ok (c2, p2) =>
    rw [hw] at h
    simp only [Except.ok.injEq, Prod.mk.injEq] at h
    obtain ⟨hd, hrem⟩ := h
    rw [← hd, ← hrem]
    exact diffWalk_ok_names _ _ _ _ hw
  | .error e =>
    rw [hw] at h
    simp at h

theorem try_exec_up (p : Plan) (migs : List DynMigration) (rm : MigrationRunMode)
    (h : p.kind = .Up migs) :
    p.try_exec rm =
      ((upGo rm p.ctx_registry p.state.state.applied_migrations migs).1,
       { p with
           ctx_registry := (upGo rm p.ctx_registry p.state.state.applied_migrations migs).2.1
           state := { p.state with
             state := { applied_migrations :=
               (upGo rm p.ctx_registry p.state.state.applied_migrations migs).2.2 } } }) := by
  rcases hx : upGo rm p.ctx_registry p.state.state.applied_migrations migs with ⟨r, reg2, app2⟩
  simp only [Plan.try_exec, h, hx]

theorem try_exec_down (p : Plan) (migs : List DynMigration) (rm : MigrationRunMode)
    (h : p.kind = .Down migs) :
    p.try_exec rm =
      ((downGo rm p.ctx_registry p.state.state.applied_migrations migs.reverse).1,
       { p with
           ctx_registry :=
             (downGo rm p.ctx_registry p.state.state.applied_migrations migs.reverse).2.1
           state := { p.state with
             state := { applied_migrations :=
               (downGo rm p.ctx_registry p.state.state.applied_migrations
                 migs.reverse).2.2 } } }) := by
  rcases hx : downGo rm p.ctx_registry p.state.state.applied_migrations migs.reverse
    with ⟨r, reg2, app2⟩
  simp only [Plan.try_exec, h, hx]

/-- Claim C9.  For every plan produced by `PlanBuilder::build` with a
`Down` selection, the `Down` loop's per-entry check always passes: popping
the tail of the in-memory applied list yields a `Some` entry whose name
equals the current plan entry's name, so the `assert_eq!`/`unwrap`
abort-on-violation is unreachable for any run mode. -/
theorem down_plan_assert_unreachable (b : PlanBuilder) (fetched : List Char)
    (bound : String) (p : Plan) (rm : MigrationRunMode)
    (hbuild : b.build fetched (.Down bound) = .ok p) :
    (p.try_exec rm).1 ≠ .panicked .assertPop := by
  simp only [PlanBuilder.build] at hbuild
  match hdec : State.decode fetched with
  | .error e => rw [hdec] at hbuild; simp at hbuild
  | .ok st =>
    rw [hdec] at hbuild
    simp only [] at hbuild
    match hdiff : diff b.migrations st.applied_migrations with
    | .error e => rw [hdiff] at hbuild; simp at hbuild
    | .ok (d, applied2) =>
      rw [hdiff] at hbuild
      simp only [] at hbuild
      match hfind : PlanBuilder.find_migration d.completed bound with
      | .error e => rw [hfind] at hbuild; simp at hbuild
      | .ok idx =>
        rw [hfind] at hbuild
        simp only [Except.ok.injEq] at hbuild
        have hnames := diff_ok_names _ _ _ _ hdiff
        subst hbuild
        rw [try_exec_down _ (d.completed.drop idx) rm rfl]
        simp only []
        apply downGo_no_assert ((d.completed.drop idx)).reverse rm applied2
          ((d.completed.take idx).map (fun m => m.name))
        rw [List.reverse_reverse, ← hnames, ← List.map_append, List.take_append_drop]

/-- Fixture: a builder holding one migration whose context is already
initialized, used to build a concrete `Down` plan. -/
def builderC9 : PlanBuilder :=
  { ctx_registry := [(0, .Init 0)], migrations := [mkMig "mig-a"], force_lock := false }

/-- Fixture: persisted bytes recording that `mig-a` was applied. -/
def bytesC9 : List Char := State.encode ⟨[⟨"mig-a"⟩]⟩

/-- Fixture: the plan `builderC9` builds for `Down "mig-a"` (the error arm
is unreachable and returns a dummy plan). -/
def planC9 : Plan :=
  match builderC9.build bytesC9 (.Down "mig-a") with
  | .ok p => p
  | .error _ =>
    { ctx_registry := [], state := { pruned := [], state := { applied_migrations := [] } },
      left_completed := [], left_pending := [], kind := .Up [] }

set_option maxRecDepth 10000 in
/-- Witness for claim C9 at a concretely built `Down` plan. -/
theorem down_plan_assert_unreachable_witness :
    (planC9.try_exec .Commit).1 ≠ .panicked .assertPop :=
  down_plan_assert_unreachable builderC9 bytesC9 "mig-a" planC9 .Commit rfl

/-- The error bundle `Plan::exec` accumulates: the loop's error (if any),
then the `update` error (if any), then the `unlock` error (if any). -/
def execErrors (r : ScriptOutcome) (env : ExecEnv) : List PlanExecErrorKind :=
  (match r with
   | .err e => [e]
   | _ => []) ++
  (match env.updateResult with
   | some e => [PlanExecErrorKind.UpdateState e]
   | none => []) ++
  (match env.unlockResult with
   | some e => [PlanExecErrorKind.UnlockState e]
   | none => [])

/-- Claim C1.  Whenever the migration loop of `Plan::exec` terminates
normally (with success or an error, i.e. without panicking), the exit
epilogue always runs: the trace shows exactly one `update` call (carrying
the encoded post-loop state) and one `unlock` call, in that order;
update/unlock errors are appended to the bundle after the primary loop
error; the call returns `Ok(())` iff the bundle is empty, and otherwise
returns `PlanExecError` holding exactly that bundle, whose `source` is its
first entry. -/
theorem plan_exec_epilogue (p : Plan) (rm : MigrationRunMode) (env : ExecEnv)
    (hnp : (p.try_exec rm).1.isPanic = false) :
    (p.exec rm env).2.countP ExecEvent.isUpdate = 1 ∧
    (p.exec rm env).2.count ExecEvent.unlock = 1 ∧
    (p.exec rm env).2 =
      [ExecEvent.update ((p.try_exec rm).2.state.state.encode), ExecEvent.unlock] ∧
    ((p.exec rm env).1 = .ok ↔ execErrors (p.try_exec rm).1 env = []) ∧
    (execErrors (p.try_exec rm).1 env ≠ [] →
      (p.exec rm env).1 = .err ⟨execErrors (p.try_exec rm).1 env⟩ ∧
      (PlanExecError.mk (execErrors (p.try_exec rm).1 env)).source =
        (execErrors (p.try_exec rm).1 env)[0]?) := by
  rcases hpe : p.try_exec rm with ⟨r, p2⟩
  rw [hpe] at hnp
  simp only [] at hnp
  have hexec : p.exec rm env =
      (if (execErrors r env).isEmpty then .ok else .err ⟨execErrors r env⟩,
       [ExecEvent.update (p2.state.state.encode), ExecEvent.unlock]) := by
    match r with
    | .panicked reason => simp [ScriptOutcome.isPanic] at hnp
    | .ok => simp only [Plan.exec, hpe, execErrors]
    | .err e => simp only [Plan.exec, hpe, execErrors]
  rw [hexec]
  simp only []
  refine ⟨?_, ?_, trivial, ?_, ?_⟩
  · simp [List.countP_cons, ExecEvent.isUpdate]
  · simp [List.count_cons, List.count_nil]
  · by_cases hb : execErrors r env = []
    · simp [hb]
    · have : (execErrors r env).isEmpty = false := by
        simpa [List.isEmpty_iff] using hb
      simp [this, hb]
  · intro hb
    have : (execErrors r env).isEmpty = false := by
      simpa [List.isEmpty_iff] using hb
    simp [this, PlanExecError.source]

/-- Fixture: the trivial empty `Up` plan. -/
def planFixture : Plan :=
  { ctx_registry := [], state := { pruned := [], state := { applied_migrations := [] } },
    left_completed := [], left_pending := [], kind := .Up [] }

/-- Witness for claim C1 at a concrete plan and environment. -/
theorem plan_exec_epilogue_witness :
    (planFixture.exec .Commit ⟨none, some "boom"⟩).2.count ExecEvent.unlock = 1 :=
  (plan_exec_epilogue planFixture .Commit ⟨none, some "boom"⟩ (by decide)).2.1

/-- Claim C10.  Every `PlanExecError` value that `Plan::exec` returns
carries at least one error, so `Display` (which slices `errors[1..]`) and
`Error::source` (which indexes `errors[0]`) never index out of bounds. -/
theorem plan_exec_error_nonempty (p : Plan) (rm : MigrationRunMode) (env : ExecEnv)
    (e : PlanExecError) (ev : List ExecEvent)
    (h : p.exec rm env = (.err e, ev)) :
    0 < e.errors.length ∧ e.displayIndexOk ∧ ∃ k, e.source = some k := by
  rcases hpe : p.try_exec rm with ⟨r, p2⟩
  match r with
  | .panicked reason =>
    rw [Plan.exec.eq_def, hpe] at h
    simp at h
  | .ok =>
    rw [Plan.exec.eq_def, hpe] at h
    simp only [] at h
    by_cases hb : ((match ScriptOutcome.ok with
        | ScriptOutcome.err e => [e]
        | _ => ([] : List PlanExecErrorKind)) ++
      (match env.updateResult with
       | some e => [PlanExecErrorKind.UpdateState e]
       | none => []) ++
      (match env.unlockResult with
       | some e => [PlanExecErrorKind.UnlockState e]
       | none => [])).isEmpty
    · rw [if_pos hb] at h
      simp at h
    · rw [if_neg hb] at h
      simp only [Prod.mk.injEq, ExecOutcome.err.injEq] at h
      obtain ⟨he, _⟩ := h
      have hnonempty : e.errors ≠ [] := by
        rw [← he]
        simp only [List.isEmpty_iff] at hb
        exact hb
      have hlen : 0 < e.errors.length := List.length_pos.mpr hnonempty
      refine ⟨hlen, hlen, ?_⟩
      match hq : e.errors with
      | x :: xs => exact ⟨x, by simp [PlanExecError.source, hq]⟩
      | [] => exact absurd hq hnonempty
  | .err e2 =>
    rw [Plan.exec.eq_def, hpe] at h
    simp only [] at h
    by_cases hb : (([e2] : List PlanExecErrorKind) ++
      (match env.updateResult with
       | some e => [PlanExecErrorKind.UpdateState e]
       | none => []) ++
      (match env.unlockResult with
       | some e => [PlanExecErrorKind.UnlockState e]
       | none => [])).isEmpty
    · rw [if_pos hb] at h
      simp at h
    · rw [if_neg hb] at h
      simp only [Prod.mk.injEq, ExecOutcome.err.injEq] at h
      obtain ⟨he, _⟩ := h
      have hnonempty : e.errors ≠ [] := by
        rw [← he]
        simp only [List.isEmpty_iff] at hb
        exact hb
      have hlen : 0 < e.errors.length := List.length_pos.mpr hnonempty
      refine ⟨hlen, hlen, ?_⟩
      match hq : e.errors with
      | x :: xs => exact ⟨x, by simp [PlanExecError.source, hq]⟩
      | [] => exact absurd hq hnonempty

set_option maxRecDepth 10000 in
/-- Witness for claim C10 at a concrete failing execution. -/
theorem plan_exec_error_nonempty_witness :
    0 < (PlanExecError.mk [PlanExecErrorKind.UnlockState "boom"]).errors.length ∧
    (PlanExecError.mk [PlanExecErrorKind.UnlockState "boom"]).displayIndexOk ∧
    ∃ k, (PlanExecError.mk [PlanExecErrorKind.UnlockState "boom"]).source = some k :=
  plan_exec_error_nonempty planFixture .Commit ⟨none, some "boom"⟩
    (PlanExecError.mk [PlanExecErrorKind.UnlockState "boom"])
    [ExecEvent.update (State.encode ⟨[]⟩), ExecEvent.unlock] (by decide)

/-- Claim C2.  For every `Up` plan, if the entries before position `k` all
complete their invocation (result `Ok`, so no abort) and the `k`-th
entry's `up` invocation fails, then the state `exec`'s exit epilogue
persists (the payload of its single `update` call) lists exactly the prior
applied prefix followed by the names of plan entries `0..=k` — the failing
entry included, because each name is pushed onto the in-memory list before
its script is invoked. -/
theorem up_failure_persists_prefix (p : Plan) (migs : List DynMigration)
    (rm : MigrationRunMode) (env : ExecEnv) (k : Nat) (e : PlanExecErrorKind)
    (hkind : p.kind = .Up migs) (hk : k < migs.length)
    (hpre : (upGo rm p.ctx_registry p.state.state.applied_migrations (migs.take k)).1 = .ok)
    (hfail : (Plan.exec_migration
        (upGo rm p.ctx_registry p.state.state.applied_migrations (migs.take k)).2.1 rm .Up
        (migs.get ⟨k, hk⟩)).1 = .err e) :
    (p.exec rm env).2 =
      [ExecEvent.update (State.encode ⟨p.state.state.applied_migrations ++
          (migs.take (k + 1)).map (fun m => (⟨m.name⟩ : MigrationMeta))⟩),
       ExecEvent.unlock] := by
  have hup := upGo_fail_at migs rm k p.ctx_registry p.state.state.applied_migrations e hk
    hpre hfail
  have htx := try_exec_up p migs rm hkind
  rw [hup] at htx
  simp only [] at htx
  rw [Plan.exec.eq_def, htx]

/-- Fixture: a migration whose `up` fails with an opaque script error. -/
def failMig : DynMigration :=
  { name := "mig-f", ctxType := 0,
    up := fun c => (.error "boom", c),
    down := fun c => (.ok (), c) }

/-- Fixture: an `Up` plan around `failMig` with one previously applied
migration in its state snapshot. -/
def planC2 : Plan :=
  { ctx_registry := [(0, .Init 0)],
    state := { pruned := [], state := { applied_migrations := [⟨"mig-0"⟩] } },
    left_completed := [], left_pending := [], kind := .Up [failMig] }

set_option maxRecDepth 10000 in
/-- Witness for claim C2 at a concrete failing plan. -/
theorem up_failure_persists_prefix_witness :
    (planC2.exec .Commit ⟨none, none⟩).2 =
      [ExecEvent.update (State.encode ⟨[⟨"mig-0"⟩] ++
          ([failMig].take 1).map (fun m => (⟨m.name⟩ : MigrationMeta))⟩),
       ExecEvent.unlock] :=
  up_failure_persists_prefix planC2 [failMig] .Commit ⟨none, none⟩ 0
    (.ExecMigrationScript "boom") rfl (by decide) rfl (by decide)

/-- Fixture: a context provider that declines no-commit mode. -/
def declineProvider : MigrationCtxProvider := ⟨.ok 0, none⟩

/-- Fixture: a migration whose context provider declines no-commit mode. -/
def skipMig : DynMigration :=
  { name := "mig-s", ctxType := 0,
    up := fun c => (.ok (), c),
    down := fun c => (.ok (), c) }

/-- Fixture: a NoCommit-run `Up` plan around `skipMig` starting from the
empty applied state. -/
def planC3 : Plan :=
  { ctx_registry := [(0, .Uninit (some declineProvider))],
    state := { pruned := [], state := { applied_migrations := [] } },
    left_completed := [], left_pending := [], kind := .Up [skipMig] }

set_option maxRecDepth 10000 in
/-- Counterexample for claim C3: in NoCommit mode the migration whose
registry lookup yields the recoverable `CtxLacksNoCommitMode` sentinel is
indeed skipped (the loop result is `Ok`), but its name IS recorded: the
push precedes the invocation and is not rolled back on the skip, so the
persisted `applied_migrations` payload handed to `update` lists the
skipped migration, contradicting the claim's "NOT appended". -/
theorem noCommit_skip_recorded_cex :
    (planC3.try_exec .NoCommit).1 = .ok ∧
    (planC3.try_exec .NoCommit).2.state.state.applied_migrations = [⟨"mig-s"⟩] ∧
    (planC3.exec .NoCommit ⟨none, none⟩).2 =
      [ExecEvent.update (State.encode ⟨[⟨"mig-s"⟩]⟩), ExecEvent.unlock] :=
  ⟨by decide, by decide, by decide⟩

/-- Claim C3 (amended).  During an `Up` exec, when a migration's registry
lookup yields the recoverable `CtxLacksNoCommitMode` sentinel, the
executor skips that migration and continues with the next one, but the
skipped migration's name IS appended to the in-memory (and hence
persisted) `applied_migrations` state: the per-entry push happens before
the invocation and a skip does not remove it. -/
theorem noCommit_skip_continues_and_records (p : Plan) (m : DynMigration)
    (rest : List DynMigration) (rm : MigrationRunMode)
    (hkind : p.kind = .Up (m :: rest))
    (hskip : (m.execScript p.ctx_registry rm .Up).1 = .err .CtxLacksNoCommitMode) :
    (p.try_exec rm).1 =
      (upGo rm (m.execScript p.ctx_registry rm .Up).2
        (p.state.state.applied_migrations ++ [⟨m.name⟩]) rest).1 ∧
    (p.try_exec rm).2.state.state.applied_migrations =
      (upGo rm (m.execScript p.ctx_registry rm .Up).2
        (p.state.state.applied_migrations ++ [⟨m.name⟩]) rest).2.2 ∧
    (⟨m.name⟩ : MigrationMeta) ∈ (p.try_exec rm).2.state.state.applied_migrations := by
  rcases hx : m.execScript p.ctx_registry rm .Up with ⟨res, reg2⟩
  have hres : res = .err .CtxLacksNoCommitMode := by
    rw [hx] at hskip
    exact hskip
  subst hres
  have hstep : Plan.exec_migration p.ctx_registry rm .Up m = (.ok, reg2) := by
    simp [Plan.exec_migration, hx]
  have hupcons : upGo rm p.ctx_registry p.state.state.applied_migrations (m :: rest) =
      upGo rm reg2 (p.state.state.applied_migrations ++ [⟨m.name⟩]) rest := by
    rw [upGo_cons, hstep]
  have htx := try_exec_up p (m :: rest) rm hkind
  rw [htx]
  simp only []
  rw [hupcons]
  refine ⟨rfl, rfl, ?_⟩
  obtain ⟨t, ht⟩ :=
    upGo_extends rest rm reg2 (p.state.state.applied_migrations ++ [⟨m.name⟩])
  rw [ht]
  simp

set_option maxRecDepth 10000 in
/-- Witness for the amended claim C3 at a concrete skipping plan. -/
theorem noCommit_skip_witness :
    (⟨"mig-s"⟩ : MigrationMeta) ∈
      (planC3.try_exec .NoCommit).2.state.state.applied_migrations :=
  (noCommit_skip_continues_and_records planC3 skipMig [] .NoCommit rfl (by decide)).2.2
